import Mathlib

/-!
Verification of the configuration subsystem of zbackup (`src/config.cc`).

We build a shallow embedding of the option registry (`ConfigHelper::keywords`),
the token resolver (`Config::parseToken`), the option parser
(`Config::parseOption`) with its `sscanf`-based value scanners, and the
interactive edit workflow (`Config::editInteractively`), and prove the
specified properties about them.

Strings are embedded as `List Char` (C strings, NUL excluded).  The relevant
pieces of C library behaviour are modelled explicitly:

* `strcasecmp(a, b) == 0` is "the `tolower` images of `a` and `b` coincide";
* `sscanf`'s `%zu` conversion skips whitespace, accepts an optional sign and
  a nonempty digit run, and converts as `strtoul` does: modulo-`2^64`
  negation for a leading minus, saturation at `2^64 - 1` on overflow
  (`size_t` is 64 bits wide on the platforms zbackup targets);
* `%s` skips whitespace and takes a nonempty run of non-whitespace
  characters; `%15s` takes at most 15 of them;
* a whitespace directive in the format skips (possibly zero) whitespace;
  `%n` records the current offset, so the subsequent `optionValue[n]` test
  checks that only whitespace remains.

External collaborators (the compression-capability registry, the protobuf
text format and the editor process) are parameters of the embedding, as the
specification designates them external.  Diagnostic output on stderr is not
modelled; only results and state are.
-/

/-! ### Character-level C library model -/

/-- C `isspace` in the default locale. -/
def isSpaceC (c : Char) : Bool :=
  decide (c = ' ' ∨ c = '\t' ∨ c = '\n' ∨ c = '\x0b' ∨ c = '\x0c' ∨ c = '\r')

/-- C `isdigit`. -/
def isDigitC (c : Char) : Bool :=
  decide ('0' ≤ c ∧ c ≤ '9')

/-- C `tolower` in the default locale: uppercase ASCII maps down, all else fixed. -/
def toLowerC (c : Char) : Char :=
  if 'A' ≤ c ∧ c ≤ 'Z' then Char.ofNat (c.toNat + 32) else c

/-- Convenience: embed a Lean string literal as a C string. -/
def str (s : String) : List Char := s.toList

/-- `size_t` arithmetic is modulo `word`; zbackup targets 64-bit platforms. -/
def word : Nat := 2 ^ 64

/-! ### The option registry (`ConfigHelper::keywords`) -/

/-- `Config::OpCodes`. -/
inductive OpCodes where
  | oBadOption
  | oChunk_max_size
  | oBundle_max_payload_size
  | oBundle_compression_method
  | oRuntime_threads
  | oRuntime_cacheSize
  | oRuntime_exchange
  deriving DecidableEq

/-- `Config::OptionType`. -/
inductive OptionType where
  | None
  | Runtime
  | Storable
  deriving DecidableEq, Fintype

/-- One entry of `ConfigHelper::keywords`.  The help text and pre-rendered
default value are diagnostics only (consumed by `showHelp`) and are not part
of this model. -/
structure Keyword where
  name : List Char
  opcode : OpCodes
  type : OptionType
  deriving DecidableEq

/-- The registry table, in registration order.  The `{ NULL, oBadOption, None }`
sentinel terminating the C array is represented by the end of the list. -/
def keywords : List Keyword :=
  [ ⟨str "chunk.max_size", .oChunk_max_size, .Storable⟩,
    ⟨str "bundle.max_payload_size", .oBundle_max_payload_size, .Storable⟩,
    ⟨str "bundle.compression_method", .oBundle_compression_method, .Storable⟩,
    ⟨str "compression", .oBundle_compression_method, .Storable⟩,
    ⟨str "threads", .oRuntime_threads, .Runtime⟩,
    ⟨str "cache-size", .oRuntime_cacheSize, .Runtime⟩,
    ⟨str "exchange", .oRuntime_exchange, .Runtime⟩ ]

/-- The loop body of `Config::parseToken`: scan for the first case-insensitive
name match; a match under the wrong category prints a diagnostic and breaks
out of the loop, so the result is `oBadOption`. -/
def parseTokenAux : List Keyword → List Char → OptionType → OpCodes
  | [], _, _ => .oBadOption
  | k :: rest, option, type =>
    if option.map toLowerC = k.name.map toLowerC then
      if k.type ≠ type then .oBadOption else k.opcode
    else parseTokenAux rest option type

/-- `Config::parseToken`. -/
def parseToken (option : List Char) (type : OptionType) : OpCodes :=
  parseTokenAux keywords option type

/-! ### Configuration state -/

/-- The fields of the storable `ConfigInfo` record touched by this file
(`chunk.max_size`, `bundle.max_payload_size`, `bundle.compression_method`). -/
structure StorableRec where
  chunk_max_size : Nat
  bundle_max_payload_size : Nat
  compression_method : List Char
  deriving DecidableEq

/-- `runtime.exchange`, a `bitset` over `BackupExchanger::{backups,bundles,index}`. -/
structure ExchangeSet where
  backups : Bool
  bundles : Bool
  index : Bool
  deriving DecidableEq

/-- `Config::RuntimeConfig`. -/
structure RuntimeRec where
  threads : Nat
  cacheSize : Nat
  exchange : ExchangeSet
  deriving DecidableEq

/-- A compression capability; `name` is what `getName()` reports. -/
structure CompMethod where
  name : List Char
  deriving DecidableEq

/-- The external capability registry,
`Compression::CompressionMethod::findCompression`. -/
structure CompEnv where
  find : List Char → Option CompMethod

/-- Everything `Config::parseOption` may read or write: the storable record,
the runtime record, and the process-wide
`Compression::CompressionMethod::selectedCompression`. -/
structure State where
  storable : StorableRec
  runtime : RuntimeRec
  selectedCompression : Option CompMethod
  deriving DecidableEq

/-- Outcome of `Config::parseOption`: `true`, `false`, or a thrown
`exInvalidThreadsValue` carrying the offending value text. -/
inductive POutcome where
  | applied
  | rejected
  | fatal (lit : List Char)
  deriving DecidableEq

/-! ### sscanf value scanners -/

/-- Value of a run of decimal digits. -/
def digitsVal (l : List Char) : Nat :=
  l.foldl (fun a d => a * 10 + (d.toNat - 48)) 0

/-- `%zu`: skip whitespace, optional sign, nonempty digit run, conversion as
`strtoul` (modulo-`2^64` negation for a leading minus, saturation at
`2^64 - 1` on overflow).  Returns the converted value and the unconsumed
remainder. -/
def parseZu (v : List Char) : Option (Nat × List Char) :=
  let v1 := v.dropWhile isSpaceC
  match v1 with
  | [] => none
  | c :: cs =>
    let neg : Bool := c = '-'
    let v2 := if c = '-' ∨ c = '+' then cs else v1
    let digits := v2.takeWhile isDigitC
    if digits = [] then none
    else
      let m := digitsVal digits
      let value := if m ≥ word then word - 1
                   else if neg then (word - m) % word else m
      some (value, v2.drop digits.length)

/-- The threads value check,
`sscanf( optionValue, "%zu %n", &sizeValue, &n ) != 1 || optionValue[ n ] || sizeValue < 1`:
`none` means the `exInvalidThreadsValue` exception is thrown. -/
def threadsScan (v : List Char) : Option Nat :=
  match parseZu v with
  | none => none
  | some (n, rest) =>
    if rest.dropWhile isSpaceC = [] ∧ 1 ≤ n then some n else none

/-- The suffix table of the cache-size handler, applied to the lowercased
suffix.  `scale` is an `unsigned int`; all table values fit in 32 bits, so
the `scaleBase * scaleBase * scaleBase` products are exact. -/
def suffixScale (s : List Char) : Option Nat :=
  if s = str "b" then some 1
  else if s = str "kib" then some 1024
  else if s = str "mib" then some (1024 * 1024)
  else if s = str "gib" then some (1024 * 1024 * 1024)
  else if s = str "kb" then some 1000
  else if s = str "mb" then some (1000 * 1000)
  else if s = str "gb" then some (1000 * 1000 * 1000)
  else none

/-- The cache-size value scan:
`sscanf( optionValue, "%zu %15s %n", &sizeValue, suffix, &n ) == 2 && !optionValue[ n ]`,
then lowercase the suffix, look it up, and compute
`runtime.cacheSize = sizeValue * scale` in `size_t` arithmetic.
`none` means `parseOption` returns `false`. -/
def cacheScan (v : List Char) : Option Nat :=
  match parseZu v with
  | none => none
  | some (nval, rest) =>
    let rest1 := rest.dropWhile isSpaceC
    let run := rest1.takeWhile (fun c => ¬ isSpaceC c)
    if run = [] then none
    else
      let suffix := run.take 15
      let rest2 := (rest1.drop suffix.length).dropWhile isSpaceC
      if rest2 ≠ [] then none
      else
        match suffixScale (suffix.map toLowerC) with
        | some scale => some (nval * scale % word)
        | none => none

/-- The token-splitting step of `Config::parseOption`:
`sscanf( option, "%[^=]=%s", optionName, optionValue ) == 2`.
`%[^=]` takes a nonempty run of non-`'='` characters, the literal `'='` must
match the next character, and `%s` skips whitespace and takes a nonempty run
of non-whitespace characters (anything after that run is never read). -/
def splitOption (option : List Char) : Option (List Char × List Char) :=
  let name := option.takeWhile (fun c => c ≠ '=')
  if name = [] then none
  else
    match option.drop name.length with
    | c :: rest =>
      if c = '=' then
        let value := (rest.dropWhile isSpaceC).takeWhile (fun c => ¬ isSpaceC c)
        if value = [] then none else some (name, value)
      else none
    | [] => none

/-! ### `Config::parseOption` -/

/-- The `switch ( opcode )` body of `Config::parseOption` on the
`hasValue == true` path (each case's `if ( !hasValue ) return false` guard
cannot fire here; the `hasValue == false` path is in `parseOption` below).
Opcodes without a `case` of their own (`oChunk_max_size`,
`oBundle_max_payload_size`, `oBadOption`) fall through to
`default: return false`.  A thrown `exInvalidThreadsValue` propagates before
any assignment, so it carries the unchanged state. -/
def parseOptionValued (env : CompEnv) (opcode : OpCodes)
    (optionValue : List Char) (st : State) : POutcome × State :=
  match opcode with
  | .oBundle_compression_method =>
    if optionValue = str "lzma" then
      match env.find (str "lzma") with
      | none => (.rejected, st)
      | some lzma =>
        (.applied,
          { st with
            selectedCompression := some lzma,
            storable := { st.storable with compression_method := lzma.name } })
    else if optionValue = str "lzo1x_1" ∨ optionValue = str "lzo" then
      match env.find (str "lzo1x_1") with
      | none => (.rejected, st)
      | some lzo =>
        (.applied,
          { st with
            selectedCompression := some lzo,
            storable := { st.storable with compression_method := lzo.name } })
    else (.rejected, st)
  | .oRuntime_threads =>
    match threadsScan optionValue with
    | none => (.fatal optionValue, st)
    | some n => (.applied, { st with runtime := { st.runtime with threads := n } })
  | .oRuntime_cacheSize =>
    match cacheScan optionValue with
    | none => (.rejected, st)
    | some sz => (.applied, { st with runtime := { st.runtime with cacheSize := sz } })
  | .oRuntime_exchange =>
    if optionValue = str "backups" then
      (.applied, { st with runtime :=
        { st.runtime with exchange := { st.runtime.exchange with backups := true } } })
    else if optionValue = str "bundles" then
      (.applied, { st with runtime :=
        { st.runtime with exchange := { st.runtime.exchange with bundles := true } } })
    else if optionValue = str "index" then
      (.applied, { st with runtime :=
        { st.runtime with exchange := { st.runtime.exchange with index := true } } })
    else (.rejected, st)
  | _ => (.rejected, st)

/-- `Config::parseOption`.  Split the token; resolve the name (the whole
token when no value was detected) through `parseToken`; dispatch on the
opcode.  When no value was detected, every opcode with a `case` hits its
`if ( !hasValue ) return false` guard, and the remaining opcodes hit
`default: return false`. -/
def parseOption (env : CompEnv) (option : List Char) (type : OptionType)
    (st : State) : POutcome × State :=
  match splitOption option with
  | some (optionName, optionValue) =>
    parseOptionValued env (parseToken optionName type) optionValue st
  | none =>
    match parseToken option type with
    | .oBundle_compression_method => (.rejected, st)
    | .oRuntime_threads => (.rejected, st)
    | .oRuntime_cacheSize => (.rejected, st)
    | .oRuntime_exchange => (.rejected, st)
    | _ => (.rejected, st)

/-! ### `Config::editInteractively` -/

/-- The external collaborators of the edit workflow: the protobuf text
format (`Config::toString` / `Config::parse` over `ConfigInfo`) and the
editor process (`ZBackupBase::spawnEditor`, which receives the current text
and either returns the edited text or signals abort; it also receives the
`validate` predicate, which is a pure check and does not affect state). -/
structure EditEnv (R : Type) where
  print : R → List Char
  parse : List Char → Option R
  editor : Nat → List Char → Option (List Char)

/-- Terminal states of one `edit` invocation.  In the C function all three
map to the return value `res = COMMITTED`, with `NO_CHANGE` and `COMMITTED`
distinguished by their `verbosePrintf` messages. -/
inductive EditResult where
  | ABORTED
  | NO_CHANGE
  | COMMITTED
  deriving DecidableEq

/-- `Config::editInteractively`.  `calls` counts invocations of the external
editor, so that single consultation is a provable fact rather than prose.
Returns the terminal state, the stored record afterwards, and the updated
invocation count. -/
def editInteractively {R : Type} (env : EditEnv R) (stored : R) (calls : Nat) :
    EditResult × R × Nat :=
  let configData := env.print stored
  match env.editor calls configData with
  | none => (.ABORTED, stored, calls + 1)
  | some newConfigData =>
    match env.parse newConfigData with
    | none => (.ABORTED, stored, calls + 1)
    | some newConfig =>
      if env.print stored = env.print newConfig then (.NO_CHANGE, stored, calls + 1)
      else (.COMMITTED, newConfig, calls + 1)

/-! ### Test fixtures used by closed witnesses -/

/-- A sample configuration state for closed evaluations. -/
def testState : State :=
  ⟨⟨65536, 2097152, str "lzma"⟩, ⟨8, 41943040, ⟨false, false, false⟩⟩, none⟩

/-- A sample capability registry in which only LZMA is compiled in. -/
def testEnv : CompEnv :=
  ⟨fun s => if s = str "lzma" then some ⟨str "lzma"⟩ else none⟩

/-! ### List and character helper lemmas -/

theorem takeWhile_append_all {α} (p : α → Bool) (l1 l2 : List α)
    (h : ∀ a ∈ l1, p a = true) :
    (l1 ++ l2).takeWhile p = l1 ++ l2.takeWhile p := by
  induction l1 with
  | nil => simp
  | cons a t ih =>
    simp only [List.cons_append, List.takeWhile_cons, h a (by simp), if_true]
    rw [ih fun x hx => h x (by simp [hx])]

theorem takeWhile_eq_self_all {α} (p : α → Bool) (l : List α)
    (h : ∀ a ∈ l, p a = true) : l.takeWhile p = l := by
  induction l with
  | nil => rfl
  | cons a t ih =>
    simp only [List.takeWhile_cons, h a (by simp), if_true]
    rw [ih fun x hx => h x (by simp [hx])]

theorem dropWhile_eq_self_all {α} (p : α → Bool) (l : List α)
    (h : ∀ a ∈ l, p a = false) : l.dropWhile p = l := by
  cases l with
  | nil => rfl
  | cons a t => simp [List.dropWhile_cons, h a (by simp)]

theorem isDigitC_not_space (c : Char) (h : isDigitC c = true) :
    isSpaceC c = false := by
  unfold isSpaceC
  simp only [decide_eq_false_iff_not]
  rintro (rfl | rfl | rfl | rfl | rfl | rfl) <;> exact absurd h (by decide)

theorem isDigitC_not_minus (c : Char) (h : isDigitC c = true) :
    ¬ (c = '-' ∨ c = '+') := by
  rintro (rfl | rfl) <;> exact absurd h (by decide)

/-! ### `splitOption` lemmas -/

/-- Splitting succeeds on `name=value` when `name` is a nonempty `'='`-free
run and `value` is a nonempty whitespace-free run. -/
theorem splitOption_eq (nm v : List Char) (h1 : '=' ∉ nm) (h2 : nm ≠ [])
    (h3 : v ≠ []) (h4 : ∀ c ∈ v, isSpaceC c = false) :
    splitOption (nm ++ '=' :: v) = some (nm, v) := by
  have hname : (nm ++ '=' :: v).takeWhile (fun c => decide (c ≠ '=')) = nm := by
    rw [takeWhile_append_all _ _ _
      (fun a ha => by simp only [decide_eq_true_eq]; exact fun he => h1 (he ▸ ha))]
    simp [List.takeWhile_cons]
  have hdw : v.dropWhile isSpaceC = v := dropWhile_eq_self_all _ _ h4
  have htw : v.takeWhile (fun c => decide (¬ isSpaceC c = true)) = v :=
    takeWhile_eq_self_all _ _ (fun a ha => by simp [h4 a ha])
  unfold splitOption
  simp only [hname, if_neg h2, List.drop_left, hdw, htw, if_neg h3,
    decide_eq_true_eq, if_true]

/-- Splitting fails on a token ending in `'='` with nothing after it:
`%s` finds no characters, so `sscanf` returns 1 and `hasValue` stays false. -/
theorem splitOption_trailing_eq_none (w : List Char) (h1 : '=' ∉ w) :
    splitOption (w ++ ['=']) = none := by
  by_cases hw : w = []
  · subst hw; simp [splitOption]
  · have hname : (w ++ ['=']).takeWhile (fun c => decide (c ≠ '=')) = w := by
      rw [takeWhile_append_all _ _ _
        (fun a ha => by simp only [decide_eq_true_eq]; exact fun he => h1 (he ▸ ha))]
      simp [List.takeWhile_cons]
    unfold splitOption
    simp only [hname, if_neg hw, List.drop_left]
    simp

/-! ### `parseToken` lemmas -/

/-- `strcasecmp` only inspects the `tolower` images, so `parseToken` cannot
distinguish tokens with equal lowercased forms. -/
theorem parseTokenAux_congr (ks : List Keyword) (s t : List Char)
    (h : s.map toLowerC = t.map toLowerC) (cat : OptionType) :
    parseTokenAux ks s cat = parseTokenAux ks t cat := by
  induction ks with
  | nil => rfl
  | cons k rest ih => simp only [parseTokenAux, h, ih]

/-- If no keyword both matches case-insensitively and has the requested
category, the scan returns `oBadOption` (either by running off the table or
by breaking out at a wrong-category match). -/
theorem parseTokenAux_notfound (ks : List Keyword) (s : List Char)
    (cat : OptionType)
    (h : ∀ k ∈ ks, s.map toLowerC = k.name.map toLowerC → k.type ≠ cat) :
    parseTokenAux ks s cat = .oBadOption := by
  induction ks with
  | nil => rfl
  | cons k rest ih =>
    simp only [parseTokenAux]
    by_cases hc : s.map toLowerC = k.name.map toLowerC
    · rw [if_pos hc, if_pos (h k (by simp) hc)]
    · rw [if_neg hc]
      exact ih fun k2 hk2 => h k2 (by simp [hk2])

/-- A non-`oBadOption` result comes from some registered keyword of the
requested category. -/
theorem parseTokenAux_mem (ks : List Keyword) (s : List Char)
    (cat : OptionType) (o : OpCodes) (h : parseTokenAux ks s cat = o) :
    o = .oBadOption ∨ ∃ k ∈ ks, k.type = cat ∧ k.opcode = o := by
  induction ks with
  | nil => exact Or.inl h.symm
  | cons k rest ih =>
    simp only [parseTokenAux] at h
    by_cases hc : s.map toLowerC = k.name.map toLowerC
    · rw [if_pos hc] at h
      by_cases ht : k.type = cat
      · rw [if_neg (by simp [ht])] at h
        exact Or.inr ⟨k, by simp, ht, h⟩
      · rw [if_pos ht] at h
        exact Or.inl h.symm
    · rw [if_neg hc] at h
      rcases ih h with hb | ⟨k2, hk2, ht2, ho2⟩
      · exact Or.inl hb
      · exact Or.inr ⟨k2, by simp [hk2], ht2, ho2⟩

/-- Each dispatchable opcode pins down the category it was registered
under: the compression opcode only resolves for `Storable` requests, the
three runtime opcodes only for `Runtime` requests. -/
theorem parseToken_category (s : List Char) (cat : OptionType) :
    (parseToken s cat = .oBundle_compression_method → cat = .Storable) ∧
    (parseToken s cat = .oRuntime_threads → cat = .Runtime) ∧
    (parseToken s cat = .oRuntime_cacheSize → cat = .Runtime) ∧
    (parseToken s cat = .oRuntime_exchange → cat = .Runtime) := by
  refine ⟨fun h => ?_, fun h => ?_, fun h => ?_, fun h => ?_⟩ <;>
  · rcases parseTokenAux_mem keywords s cat _ h with hb | ⟨k, hk, ht, ho⟩
    · exact absurd hb (by decide)
    · subst ht
      revert ho
      have : ∀ k ∈ keywords, (k.opcode = .oBundle_compression_method → k.type = .Storable) ∧
          (k.opcode = .oRuntime_threads → k.type = .Runtime) ∧
          (k.opcode = .oRuntime_cacheSize → k.type = .Runtime) ∧
          (k.opcode = .oRuntime_exchange → k.type = .Runtime) := by decide
      intro ho
      first
      | exact (this k hk).1 ho
      | exact (this k hk).2.1 ho
      | exact (this k hk).2.2.1 ho
      | exact (this k hk).2.2.2 ho

/-! ### Scanner lemmas -/

/-- `%zu` on a nonempty digit run `d` followed by a non-digit boundary `s`
converts to (the possibly saturated value of) `d` and leaves `s` unread. -/
theorem parseZu_append (d s : List Char) (hd : d ≠ [])
    (hdig : ∀ c ∈ d, isDigitC c = true)
    (hs : ∀ c ∈ s.take 1, isDigitC c = false) :
    parseZu (d ++ s)
      = some (if digitsVal d ≥ word then word - 1 else digitsVal d, s) := by
  rcases d with _ | ⟨c0, d'⟩
  · exact absurd rfl hd
  · have hc0 : isDigitC c0 = true := hdig c0 (by simp)
    have hnm : ¬ (c0 = '-' ∨ c0 = '+') := isDigitC_not_minus c0 hc0
    have hdrop : (c0 :: (d' ++ s)).dropWhile isSpaceC = c0 :: (d' ++ s) := by
      simp [List.dropWhile_cons, isDigitC_not_space c0 hc0]
    have htake : (c0 :: (d' ++ s)).takeWhile isDigitC = c0 :: d' := by
      simp only [List.takeWhile_cons, hc0, if_true]
      rw [takeWhile_append_all _ _ _ (fun a ha => hdig a (by simp [ha]))]
      rcases s with _ | ⟨c1, s'⟩
      · simp
      · have : isDigitC c1 = false := hs c1 (by simp)
        simp [List.takeWhile_cons, this]
    have hdropn : (c0 :: (d' ++ s)).drop (c0 :: d').length = s := by
      simp only [List.length_cons, List.drop_succ_cons]
      exact List.drop_left d' s
    unfold parseZu
    simp only [List.cons_append, hdrop]
    simp only [if_neg hnm, htake, hdropn,
      decide_eq_false (fun h => hnm (Or.inl h)), Bool.false_eq_true, if_false,
      if_neg (List.cons_ne_nil c0 d')]

/-- The cache-size scan on `<digits><suffix>` with a known suffix of at most
15 characters: the value is `digits * scale` in `size_t` arithmetic. -/
theorem cacheScan_suffix (d s : List Char) (hd : d ≠ [])
    (hdig : ∀ c ∈ d, isDigitC c = true)
    (hs0 : s ≠ []) (hs1 : ∀ c ∈ s, isSpaceC c = false)
    (hs2 : ∀ c ∈ s.take 1, isDigitC c = false)
    (hlen : s.length ≤ 15) (m : Nat)
    (hm : suffixScale (s.map toLowerC) = some m) (hval : digitsVal d < word) :
    cacheScan (d ++ s) = some (digitsVal d * m % word) := by
  unfold cacheScan
  rw [parseZu_append d s hd hdig hs2]
  have hnlt : ¬ digitsVal d ≥ word := by omega
  simp only [if_neg hnlt]
  have hdw : s.dropWhile isSpaceC = s := dropWhile_eq_self_all _ _ hs1
  have htw : s.takeWhile (fun c => decide (¬ isSpaceC c = true)) = s :=
    takeWhile_eq_self_all _ _ (fun a ha => by simp [hs1 a ha])
  simp only [hdw, htw, if_neg hs0, List.take_of_length_le hlen, List.drop_length,
    List.dropWhile_nil, ite_not, if_pos rfl, hm]
  simp

/-- The cache-size scan rejects a bare integer: `%15s` finds no suffix
characters, so `sscanf` returns 1, not 2. -/
theorem cacheScan_bare (d : List Char) (hd : d ≠ [])
    (hdig : ∀ c ∈ d, isDigitC c = true) :
    cacheScan d = none := by
  unfold cacheScan
  rw [show (d : List Char) = d ++ [] from (List.append_nil d).symm,
    parseZu_append d [] hd hdig (by simp)]
  simp

/-- The cache-size scan rejects `<digits><suffix>` when the lowercased
suffix is outside the table (for suffix runs longer than 15 characters the
`optionValue[ n ]` trailing-garbage test fires instead; either way the
result is `none`). -/
theorem cacheScan_badsuffix (d s : List Char) (hd : d ≠ [])
    (hdig : ∀ c ∈ d, isDigitC c = true)
    (hs0 : s ≠ []) (hs1 : ∀ c ∈ s, isSpaceC c = false)
    (hs2 : ∀ c ∈ s.take 1, isDigitC c = false)
    (hm : suffixScale (s.map toLowerC) = none) :
    cacheScan (d ++ s) = none := by
  unfold cacheScan
  rw [parseZu_append d s hd hdig hs2]
  have hdw : s.dropWhile isSpaceC = s := dropWhile_eq_self_all _ _ hs1
  have htw : s.takeWhile (fun c => decide (¬ isSpaceC c = true)) = s :=
    takeWhile_eq_self_all _ _ (fun a ha => by simp [hs1 a ha])
  by_cases hlen : s.length ≤ 15
  · simp only [hdw, htw, if_neg hs0, List.take_of_length_le hlen, List.drop_length,
      List.dropWhile_nil, ite_not, if_pos rfl, hm]
    simp
  · have hdrop_ne : s.drop 15 ≠ [] := by
      intro h
      have := congrArg List.length h
      simp only [List.length_drop, List.length_nil] at this
      omega
    have hdw2 : (s.drop 15).dropWhile isSpaceC = s.drop 15 :=
      dropWhile_eq_self_all _ _ (fun a ha => hs1 a (List.drop_subset 15 s ha))
    have hlen15 : (s.take 15).length = 15 := by
      rw [List.length_take]; omega
    simp only [hdw, htw, if_neg hs0, hlen15, hdw2, ite_not, if_neg hdrop_ne]

/-! ### `parseOption` token-level evaluation -/

/-- On a well-formed `name=value` token, `parseOption` resolves `name` and
dispatches the value to the opcode handler. -/
theorem parseOption_eq_valued (env : CompEnv) (st : State) (type : OptionType)
    (nm v : List Char) (h1 : '=' ∉ nm) (h2 : nm ≠ []) (h3 : v ≠ [])
    (h4 : ∀ c ∈ v, isSpaceC c = false) :
    parseOption env (nm ++ '=' :: v) type st
      = parseOptionValued env (parseToken nm type) v st := by
  unfold parseOption
  rw [splitOption_eq nm v h1 h2 h3 h4]

/-! ### Claim theorems -/

/-- C1: thread-count parsing.  `threads=4` is applied and sets
`runtime.threads = 4`; `threads=0` and `threads=abc` throw the
`Fatal(InvalidValue)` error carrying the offending literal with the state
unchanged.  However, contrary to the claim, `threads=-1` is NOT fatal:
`sscanf`'s `%zu` accepts the sign and converts as `strtoul`, so the value
wraps to `2^64 - 1`, passes the `sizeValue < 1` check, and the option is
applied with `runtime.threads = 2^64 - 1`. -/
theorem threads_option_eval :
    parseOption testEnv (str "threads=4") .Runtime testState
      = (.applied, { testState with runtime := { testState.runtime with threads := 4 } }) ∧
    parseOption testEnv (str "threads=0") .Runtime testState
      = (.fatal (str "0"), testState) ∧
    parseOption testEnv (str "threads=abc") .Runtime testState
      = (.fatal (str "abc"), testState) ∧
    parseOption testEnv (str "threads=-1") .Runtime testState
      = (.applied, { testState with runtime :=
          { testState.runtime with threads := 2 ^ 64 - 1 } }) := by
  decide

/-- C4 counterexample: it is NOT the case that every opcode has at most one
descriptor per category: the `Storable` descriptors at indices 2
(`bundle.compression_method`) and 3 (its shortcut `compression`) share the
opcode `oBundle_compression_method`. -/
theorem opcode_unique_per_category_fails :
    ¬ ∀ (i j : Fin keywords.length), i ≠ j →
        (keywords.get i).type = (keywords.get j).type →
        (keywords.get i).opcode ≠ (keywords.get j).opcode := by
  decide

/-- C4 amended: every opcode has exactly one descriptor per category it
applies to, except `oBundle_compression_method`, which has exactly two
`Storable` descriptors: `bundle.compression_method` (index 2) and its
shortcut `compression` (index 3). -/
theorem opcode_unique_per_category_except_alias (i j : Fin keywords.length)
    (hne : i ≠ j) (hty : (keywords.get i).type = (keywords.get j).type)
    (hop : (keywords.get i).opcode = (keywords.get j).opcode) :
    (keywords.get i).opcode = .oBundle_compression_method ∧
    (keywords.get i).type = .Storable ∧
    ((i.val = 2 ∧ j.val = 3) ∨ (i.val = 3 ∧ j.val = 2)) := by
  revert i j
  decide

/-- C4 amended, witness at the alias pair (2, 3). -/
theorem opcode_unique_per_category_except_alias_witness :
    (keywords.get (⟨2, by decide⟩ : Fin keywords.length)).opcode
        = .oBundle_compression_method ∧
    (keywords.get (⟨2, by decide⟩ : Fin keywords.length)).type = .Storable ∧
    (((⟨2, by decide⟩ : Fin keywords.length).val = 2 ∧
      (⟨3, by decide⟩ : Fin keywords.length).val = 3) ∨
     ((⟨2, by decide⟩ : Fin keywords.length).val = 3 ∧
      (⟨3, by decide⟩ : Fin keywords.length).val = 2)) :=
  opcode_unique_per_category_except_alias ⟨2, by decide⟩ ⟨3, by decide⟩
    (by decide) (by decide) (by decide)

/-- C9: a token ending in `'='` with an empty value is not treated as a
known option with a missing value: `%s` fails, so no value is detected, the
entire token (including the trailing `'='`) is looked up, no descriptor
matches, and `parseOption` returns `Rejected` with the state unchanged — in
particular no `Fatal` error is raised. -/
theorem empty_value_token_rejected (env : CompEnv) (st : State)
    (type : OptionType) (w : List Char) (hw : '=' ∉ w) :
    parseOption env (w ++ ['=']) type st = (.rejected, st) ∧
    parseToken (w ++ ['=']) type = .oBadOption := by
  have htok : parseToken (w ++ ['=']) type = .oBadOption := by
    apply parseTokenAux_notfound
    intro k hk heq
    exfalso
    have hmem : '=' ∈ k.name.map toLowerC := by
      rw [← heq, List.map_append]
      exact List.mem_append_right _ (by decide)
    have hnone : ∀ k2 ∈ keywords, '=' ∉ k2.name.map toLowerC := by decide
    exact hnone k hk hmem
  refine ⟨?_, htok⟩
  unfold parseOption
  rw [splitOption_trailing_eq_none w hw, htok]

/-- C9 witness at the token `threads=`. -/
theorem empty_value_token_rejected_witness :
    parseOption testEnv (str "threads" ++ ['=']) .Runtime testState
      = (.rejected, testState) ∧
    parseToken (str "threads" ++ ['=']) .Runtime = .oBadOption :=
  empty_value_token_rejected testEnv testState .Runtime (str "threads") (by decide)

/-- C7: the exchange option accepts exactly `backups`, `bundles`, `index`;
each successful parse sets the corresponding bit of the runtime exchange set
while preserving the other bits (accumulation, not replacement): parsing
`exchange=backups` and then `exchange=index` from the empty set yields
`{backups, index}`.  Any other value is rejected with the state unchanged. -/
theorem exchange_option_spec :
    (∀ (env : CompEnv) (st : State),
      parseOption env (str "exchange=backups") .Runtime st
      = (.applied, { st with runtime := { st.runtime with exchange :=
          { st.runtime.exchange with backups := true } } })) ∧
    (∀ (env : CompEnv) (st : State),
      parseOption env (str "exchange=bundles") .Runtime st
      = (.applied, { st with runtime := { st.runtime with exchange :=
          { st.runtime.exchange with bundles := true } } })) ∧
    (∀ (env : CompEnv) (st : State),
      parseOption env (str "exchange=index") .Runtime st
      = (.applied, { st with runtime := { st.runtime with exchange :=
          { st.runtime.exchange with index := true } } })) ∧
    (∀ (env : CompEnv) (st : State),
      parseOption env (str "exchange=index") .Runtime
        (parseOption env (str "exchange=backups") .Runtime
          { st with runtime :=
            { st.runtime with exchange := ⟨false, false, false⟩ } }).2
      = (.applied, { st with runtime :=
          { st.runtime with exchange := ⟨true, false, true⟩ } })) ∧
    (∀ (env : CompEnv) (st : State) (v : List Char),
       v ≠ [] → (∀ c ∈ v, isSpaceC c = false) →
       v ≠ str "backups" → v ≠ str "bundles" → v ≠ str "index" →
       parseOption env (str "exchange" ++ '=' :: v) .Runtime st
         = (.rejected, st)) := by
  refine ⟨fun env st => rfl, fun env st => rfl, fun env st => rfl,
    fun env st => rfl, ?_⟩
  intro env st v h0 h1 h2 h3 h4
  rw [parseOption_eq_valued env st .Runtime (str "exchange") v
    (by decide) (by decide) h0 h1]
  rw [show parseToken (str "exchange") .Runtime = .oRuntime_exchange from by decide]
  simp only [parseOptionValued]
  rw [if_neg h2, if_neg h3, if_neg h4]

/-- C7 witness at the invalid value `files`. -/
theorem exchange_option_spec_witness :
    parseOption testEnv (str "exchange" ++ '=' :: str "files") .Runtime testState
      = (.rejected, testState) :=
  exchange_option_spec.2.2.2.2 testEnv testState (str "files")
    (by decide) (by decide) (by decide) (by decide) (by decide)

/-- C6: the compression-method option accepts exactly `lzma`, `lzo1x_1` and
`lzo` (the latter two aliases resolving the same `lzo1x_1` capability).  If
the capability is absent from the external registry, or the value is any
other string, the option is rejected and the state — in particular the
storable compression field — is unchanged.  On success the resolved
capability becomes the process-wide selected compression and its canonical
name is written into the storable record's compression field. -/
theorem compression_option_spec :
    (∀ (env : CompEnv) (st : State) (m : CompMethod),
       env.find (str "lzma") = some m →
       parseOption env (str "compression=lzma") .Storable st
         = (.applied, { st with
             selectedCompression := some m,
             storable := { st.storable with compression_method := m.name } })) ∧
    (∀ (env : CompEnv) (st : State), env.find (str "lzma") = none →
       parseOption env (str "compression=lzma") .Storable st
         = (.rejected, st)) ∧
    (∀ (env : CompEnv) (st : State) (m : CompMethod),
       env.find (str "lzo1x_1") = some m →
       parseOption env (str "compression=lzo1x_1") .Storable st
         = (.applied, { st with
             selectedCompression := some m,
             storable := { st.storable with compression_method := m.name } }) ∧
       parseOption env (str "compression=lzo") .Storable st
         = (.applied, { st with
             selectedCompression := some m,
             storable := { st.storable with compression_method := m.name } })) ∧
    (∀ (env : CompEnv) (st : State), env.find (str "lzo1x_1") = none →
       parseOption env (str "compression=lzo1x_1") .Storable st
         = (.rejected, st) ∧
       parseOption env (str "compression=lzo") .Storable st
         = (.rejected, st)) ∧
    (∀ (env : CompEnv) (st : State) (v : List Char),
       v ≠ [] → (∀ c ∈ v, isSpaceC c = false) →
       v ≠ str "lzma" → v ≠ str "lzo1x_1" → v ≠ str "lzo" →
       parseOption env (str "compression" ++ '=' :: v) .Storable st
         = (.rejected, st)) := by
  have key : ∀ (env : CompEnv) (st : State) (tok cap : List Char),
      parseOption env (str "compression" ++ '=' :: tok) .Storable st
        = parseOptionValued env .oBundle_compression_method tok st →
      parseOptionValued env .oBundle_compression_method tok st
        = (match env.find cap with
           | none => (POutcome.rejected, st)
           | some z => (.applied, { st with
               selectedCompression := some z,
               storable := { st.storable with compression_method := z.name } })) →
      ∀ r, env.find cap = r →
      parseOption env (str "compression" ++ '=' :: tok) .Storable st
        = (match r with
           | none => (POutcome.rejected, st)
           | some z => (.applied, { st with
               selectedCompression := some z,
               storable := { st.storable with compression_method := z.name } })) := by
    intro env st tok cap h1 h2 r hr
    rw [h1, h2, hr]
  refine ⟨?_, ?_, ?_, ?_, ?_⟩
  · intro env st m hm
    exact key env st (str "lzma") (str "lzma") rfl rfl (some m) hm
  · intro env st hm
    exact key env st (str "lzma") (str "lzma") rfl rfl none hm
  · intro env st m hm
    exact ⟨key env st (str "lzo1x_1") (str "lzo1x_1") rfl rfl (some m) hm,
      key env st (str "lzo") (str "lzo1x_1") rfl rfl (some m) hm⟩
  · intro env st hm
    exact ⟨key env st (str "lzo1x_1") (str "lzo1x_1") rfl rfl none hm,
      key env st (str "lzo") (str "lzo1x_1") rfl rfl none hm⟩
  · intro env st v h0 h1 h2 h3 h4
    rw [parseOption_eq_valued env st .Storable (str "compression") v
      (by decide) (by decide) h0 h1]
    rw [show parseToken (str "compression") .Storable
        = .oBundle_compression_method from by decide]
    simp only [parseOptionValued]
    rw [if_neg h2, if_neg (by rintro (h | h) <;> [exact h3 h; exact h4 h])]

/-- C6 witness: in a registry providing only LZMA, `compression=lzma` is
applied (selecting the capability and storing its canonical name) and
`compression=lzo` is rejected unchanged. -/
theorem compression_option_spec_witness :
    parseOption testEnv (str "compression=lzma") .Storable testState
      = (.applied, { testState with
          selectedCompression := some ⟨str "lzma"⟩,
          storable := { testState.storable with
            compression_method := (⟨str "lzma"⟩ : CompMethod).name } }) ∧
    parseOption testEnv (str "compression=lzo1x_1") .Storable testState
      = (.rejected, testState) ∧
    parseOption testEnv (str "compression=lzo") .Storable testState
      = (.rejected, testState) ∧
    parseOption testEnv (str "compression" ++ '=' :: str "bogus") .Storable testState
      = (.rejected, testState) :=
  ⟨compression_option_spec.1 testEnv testState ⟨str "lzma"⟩ (by decide),
   (compression_option_spec.2.2.2.1 testEnv testState (by decide)).1,
   (compression_option_spec.2.2.2.1 testEnv testState (by decide)).2,
   compression_option_spec.2.2.2.2 testEnv testState (str "bogus")
     (by decide) (by decide) (by decide) (by decide) (by decide)⟩

/-- Shared evaluation of a `cache-size=<digits><suffix>` token: the stored
value is `digits * scale` reduced modulo the machine word. -/
theorem cache_token_eval (env : CompEnv) (st : State) (d s : List Char)
    (m : Nat) (hd : d ≠ []) (hdig : ∀ c ∈ d, isDigitC c = true)
    (hs0 : s ≠ []) (hs1 : ∀ c ∈ s, isSpaceC c = false)
    (hs2 : ∀ c ∈ s.take 1, isDigitC c = false) (hlen : s.length ≤ 15)
    (hm : suffixScale (s.map toLowerC) = some m)
    (hv : digitsVal d < word) :
    parseOption env (str "cache-size" ++ '=' :: (d ++ s)) .Runtime st
      = (.applied, { st with runtime :=
          { st.runtime with cacheSize := digitsVal d * m % word } }) := by
  have hne : d ++ s ≠ [] := fun h => hd (List.append_eq_nil.1 h).1
  have hnws : ∀ c ∈ d ++ s, isSpaceC c = false := by
    intro c hc
    rcases List.mem_append.1 hc with h | h
    · exact isDigitC_not_space c (hdig c h)
    · exact hs1 c h
  rw [parseOption_eq_valued env st .Runtime (str "cache-size") (d ++ s)
    (by decide) (by decide) hne hnws]
  rw [show parseToken (str "cache-size") .Runtime = .oRuntime_cacheSize from by decide]
  simp only [parseOptionValued]
  rw [cacheScan_suffix d s hd hdig hs0 hs1 hs2 hlen m hm hv]

/-- C2: cache-size values of the form `<integer><suffix>` map to the integer
times the suffix multiplier (for in-word-range products), with suffixes
matched case-insensitively per the table `B/KiB/MiB/GiB/KB/MB/GB`; a bare
integer, or a suffix outside the table, is rejected with the state (and so
the cache size) unchanged.  Concrete round-trips: `10MiB` is 10485760,
`10MB` is 10000000, `0B` is 0, `10KIB` is 10240 (case-insensitive), while
`10` and `10xyz` are rejected. -/
theorem cacheSize_option_spec :
    (∀ (env : CompEnv) (st : State) (d s : List Char) (m : Nat),
       d ≠ [] → (∀ c ∈ d, isDigitC c = true) →
       s ≠ [] → (∀ c ∈ s, isSpaceC c = false) →
       (∀ c ∈ s.take 1, isDigitC c = false) → s.length ≤ 15 →
       suffixScale (s.map toLowerC) = some m →
       digitsVal d < word → digitsVal d * m < word →
       parseOption env (str "cache-size" ++ '=' :: (d ++ s)) .Runtime st
         = (.applied, { st with runtime :=
             { st.runtime with cacheSize := digitsVal d * m } })) ∧
    (∀ (env : CompEnv) (st : State) (d s : List Char),
       d ≠ [] → (∀ c ∈ d, isDigitC c = true) →
       s ≠ [] → (∀ c ∈ s, isSpaceC c = false) →
       (∀ c ∈ s.take 1, isDigitC c = false) →
       suffixScale (s.map toLowerC) = none →
       parseOption env (str "cache-size" ++ '=' :: (d ++ s)) .Runtime st
         = (.rejected, st)) ∧
    (∀ (env : CompEnv) (st : State) (d : List Char),
       d ≠ [] → (∀ c ∈ d, isDigitC c = true) →
       parseOption env (str "cache-size" ++ '=' :: d) .Runtime st
         = (.rejected, st)) ∧
    (suffixScale (str "b") = some 1 ∧ suffixScale (str "kib") = some 1024 ∧
     suffixScale (str "mib") = some (1024 * 1024) ∧
     suffixScale (str "gib") = some (1024 * 1024 * 1024) ∧
     suffixScale (str "kb") = some 1000 ∧
     suffixScale (str "mb") = some (1000 * 1000) ∧
     suffixScale (str "gb") = some (1000 * 1000 * 1000)) ∧
    parseOption testEnv (str "cache-size=10MiB") .Runtime testState
      = (.applied, { testState with runtime :=
          { testState.runtime with cacheSize := 10485760 } }) ∧
    parseOption testEnv (str "cache-size=10MB") .Runtime testState
      = (.applied, { testState with runtime :=
          { testState.runtime with cacheSize := 10000000 } }) ∧
    parseOption testEnv (str "cache-size=0B") .Runtime testState
      = (.applied, { testState with runtime :=
          { testState.runtime with cacheSize := 0 } }) ∧
    parseOption testEnv (str "cache-size=10KIB") .Runtime testState
      = (.applied, { testState with runtime :=
          { testState.runtime with cacheSize := 10240 } }) ∧
    parseOption testEnv (str "cache-size=10") .Runtime testState
      = (.rejected, testState) ∧
    parseOption testEnv (str "cache-size=10xyz") .Runtime testState
      = (.rejected, testState) := by
  refine ⟨?_, ?_, ?_, by decide, by decide, by decide, by decide, by decide,
    by decide, by decide⟩
  · intro env st d s m hd hdig hs0 hs1 hs2 hlen hm hv hvm
    rw [cache_token_eval env st d s m hd hdig hs0 hs1 hs2 hlen hm hv,
      Nat.mod_eq_of_lt hvm]
  · intro env st d s hd hdig hs0 hs1 hs2 hm
    have hne : d ++ s ≠ [] := fun h => hd (List.append_eq_nil.1 h).1
    have hnws : ∀ c ∈ d ++ s, isSpaceC c = false := by
      intro c hc
      rcases List.mem_append.1 hc with h | h
      · exact isDigitC_not_space c (hdig c h)
      · exact hs1 c h
    rw [parseOption_eq_valued env st .Runtime (str "cache-size") (d ++ s)
      (by decide) (by decide) hne hnws]
    rw [show parseToken (str "cache-size") .Runtime = .oRuntime_cacheSize from by decide]
    simp only [parseOptionValued]
    rw [cacheScan_badsuffix d s hd hdig hs0 hs1 hs2 hm]
  · intro env st d hd hdig
    have hnws : ∀ c ∈ d, isSpaceC c = false :=
      fun c hc => isDigitC_not_space c (hdig c hc)
    rw [parseOption_eq_valued env st .Runtime (str "cache-size") d
      (by decide) (by decide) hd hnws]
    rw [show parseToken (str "cache-size") .Runtime = .oRuntime_cacheSize from by decide]
    simp only [parseOptionValued]
    rw [cacheScan_bare d hd hdig]

/-- C2 witness at `cache-size=10MiB` through the general in-range clause. -/
theorem cacheSize_option_spec_witness :
    parseOption testEnv (str "cache-size" ++ '=' :: (str "10" ++ str "MiB"))
        .Runtime testState
      = (.applied, { testState with runtime :=
          { testState.runtime with cacheSize := digitsVal (str "10") * 1048576 } }) :=
  cacheSize_option_spec.1 testEnv testState (str "10") (str "MiB") 1048576
    (by decide) (by decide) (by decide) (by decide) (by decide) (by decide)
    (by decide) (by decide) (by decide)

/-- C10: the cache-size multiplication `sizeValue * scale` is performed in
unsigned `size_t` arithmetic with no overflow check: whenever the
mathematical product of the parsed integer and the suffix multiplier
reaches or exceeds `2^64`, the option is still applied and
`runtime.cacheSize` is set to the product reduced modulo `2^64`. -/
theorem cacheSize_overflow_wraps (env : CompEnv) (st : State)
    (d s : List Char) (m : Nat) (hd : d ≠ [])
    (hdig : ∀ c ∈ d, isDigitC c = true)
    (hs0 : s ≠ []) (hs1 : ∀ c ∈ s, isSpaceC c = false)
    (hs2 : ∀ c ∈ s.take 1, isDigitC c = false) (hlen : s.length ≤ 15)
    (hm : suffixScale (s.map toLowerC) = some m)
    (hv : digitsVal d < word) (hbig : word ≤ digitsVal d * m) :
    parseOption env (str "cache-size" ++ '=' :: (d ++ s)) .Runtime st
      = (.applied, { st with runtime :=
          { st.runtime with cacheSize := digitsVal d * m % word } }) :=
  cache_token_eval env st d s m hd hdig hs0 hs1 hs2 hlen hm hv

/-- C10 witness: `cache-size=20000000000GiB` is applied and stores
`20000000000 * 2^30 mod 2^64 = 3028092406290448384`. -/
theorem cacheSize_overflow_wraps_witness :
    word ≤ digitsVal (str "20000000000") * 1073741824 ∧
    parseOption testEnv
        (str "cache-size" ++ '=' :: (str "20000000000" ++ str "GiB"))
        .Runtime testState
      = (.applied, { testState with runtime :=
          { testState.runtime with cacheSize := 3028092406290448384 } }) := by
  refine ⟨by decide, ?_⟩
  have h := cacheSize_overflow_wraps testEnv testState
    (str "20000000000") (str "GiB") 1073741824
    (by decide) (by decide) (by decide) (by decide) (by decide) (by decide)
    (by decide) (by decide) (by decide)
  rw [h]
  decide

/-- C3: one `edit` invocation consults the editor exactly once; if the
editor aborts or the returned text fails to parse, the result is ABORTED
and the stored record is unchanged; if the candidate's serialization equals
the current record's serialization, the result is NO_CHANGE and the stored
record is unchanged; otherwise the stored record becomes exactly the parsed
candidate in one full copy (COMMITTED) — no partially applied state
exists. -/
theorem editInteractively_spec {R : Type} (env : EditEnv R) (stored : R)
    (k : Nat) :
    (editInteractively env stored k).2.2 = k + 1 ∧
    (env.editor k (env.print stored) = none →
       editInteractively env stored k = (.ABORTED, stored, k + 1)) ∧
    (∀ t1, env.editor k (env.print stored) = some t1 → env.parse t1 = none →
       editInteractively env stored k = (.ABORTED, stored, k + 1)) ∧
    (∀ t1 cand, env.editor k (env.print stored) = some t1 →
       env.parse t1 = some cand →
       (env.print stored = env.print cand →
          editInteractively env stored k = (.NO_CHANGE, stored, k + 1)) ∧
       (env.print stored ≠ env.print cand →
          editInteractively env stored k = (.COMMITTED, cand, k + 1))) := by
  refine ⟨?_, ?_, ?_, ?_⟩
  · cases he : env.editor k (env.print stored) with
    | none => simp only [editInteractively, he]
    | some t1 =>
      cases hp : env.parse t1 with
      | none => simp only [editInteractively, he, hp]
      | some cand =>
        by_cases heq : env.print stored = env.print cand
        · simp only [editInteractively, he, hp, if_pos heq]
        · simp only [editInteractively, he, hp, if_neg heq]
  · intro he
    simp only [editInteractively, he]
  · intro t1 he hp
    simp only [editInteractively, he, hp]
  · intro t1 cand he hp
    refine ⟨fun heq => ?_, fun heq => ?_⟩
    · simp only [editInteractively, he, hp, if_pos heq]
    · simp only [editInteractively, he, hp, if_neg heq]

/-- A concrete edit-workflow environment over `Nat` records: record `0`
prints as `a`, everything else prints as `b`; only the text `b` parses
(to record `1`); the editor always returns the text `b`. -/
def testEditEnv : EditEnv Nat :=
  ⟨fun n => if n = 0 then str "a" else str "b",
   fun t => if t = str "b" then some 1 else none,
   fun _ _ => some (str "b")⟩

/-- C3 witness: with `testEditEnv`, editing record `0` commits the parsed
candidate `1` and consumes exactly one editor consultation. -/
theorem editInteractively_spec_witness :
    editInteractively testEditEnv 0 0 = (.COMMITTED, 1, 1) :=
  ((editInteractively_spec testEditEnv 0 0).2.2.2 (str "b") 1 rfl rfl).2
    (by decide)

/-- C5: registry lookup is a case-insensitive exact match: any token whose
`tolower` image equals a registered name's `tolower` image resolves to that
keyword's opcode when the requested category matches its registration, and
to `oBadOption` (NotFound) when the category differs; and when no keyword
of the requested category matches case-insensitively, the result is
`oBadOption`. -/
theorem parseToken_lookup_spec :
    (∀ (s : List Char) (cat : OptionType) (k : Keyword), k ∈ keywords →
       s.map toLowerC = k.name.map toLowerC →
       parseToken s cat = if k.type = cat then k.opcode else .oBadOption) ∧
    (∀ (s : List Char) (cat : OptionType),
       (∀ k ∈ keywords, s.map toLowerC = k.name.map toLowerC → k.type ≠ cat) →
       parseToken s cat = .oBadOption) := by
  constructor
  · intro s cat k hk hmap
    have hcongr : parseToken s cat = parseToken k.name cat :=
      parseTokenAux_congr keywords s k.name hmap cat
    have hall : ∀ k2 ∈ keywords, ∀ cat2 : OptionType,
        parseToken k2.name cat2
          = if k2.type = cat2 then k2.opcode else .oBadOption := by decide
    rw [hcongr]
    exact hall k hk cat
  · exact fun s cat h => parseTokenAux_notfound keywords s cat h

/-- C5 witness: `THREADS` resolves to `oRuntime_threads` under `Runtime`
and to `oBadOption` under `Storable` (the wrong category does not fall
through to the other category's opcode). -/
theorem parseToken_lookup_spec_witness :
    parseToken (str "THREADS") .Runtime
      = (if (⟨str "threads", .oRuntime_threads, .Runtime⟩ : Keyword).type
            = .Runtime
         then (⟨str "threads", .oRuntime_threads, .Runtime⟩ : Keyword).opcode
         else .oBadOption) ∧
    parseToken (str "ThReAdS") .Storable
      = (if (⟨str "threads", .oRuntime_threads, .Runtime⟩ : Keyword).type
            = .Storable
         then (⟨str "threads", .oRuntime_threads, .Runtime⟩ : Keyword).opcode
         else .oBadOption) :=
  ⟨parseToken_lookup_spec.1 (str "THREADS") .Runtime
      ⟨str "threads", .oRuntime_threads, .Runtime⟩ (by decide) (by decide),
   parseToken_lookup_spec.1 (str "ThReAdS") .Storable
      ⟨str "threads", .oRuntime_threads, .Runtime⟩ (by decide) (by decide)⟩

/-- C8: frame property of `parseOption`.  A `Rejected` return, and a thrown
`Fatal` error, leave the whole state (storable record, runtime record and
selected compression) unchanged.  An `Applied` return mutates exactly one
field of the record matching the requested category and nothing of the
other record: for `Storable` requests the runtime record is untouched and
only the compression field of the storable record may change; for `Runtime`
requests the storable record and the selected compression are untouched and
at most one of the three runtime fields changes. -/
theorem parseOption_frame (env : CompEnv) (option : List Char)
    (type : OptionType) (st : State) (out : POutcome) (st2 : State)
    (h : parseOption env option type st = (out, st2)) :
    (out = .rejected → st2 = st) ∧
    (∀ lit, out = .fatal lit → st2 = st) ∧
    (out = .applied →
       (type = .Storable →
          st2.runtime = st.runtime ∧
          st2.storable.chunk_max_size = st.storable.chunk_max_size ∧
          st2.storable.bundle_max_payload_size
            = st.storable.bundle_max_payload_size) ∧
       (type = .Runtime →
          st2.storable = st.storable ∧
          st2.selectedCompression = st.selectedCompression ∧
          ((st2.runtime.cacheSize = st.runtime.cacheSize ∧
              st2.runtime.exchange = st.runtime.exchange) ∨
           (st2.runtime.threads = st.runtime.threads ∧
              st2.runtime.exchange = st.runtime.exchange) ∨
           (st2.runtime.threads = st.runtime.threads ∧
              st2.runtime.cacheSize = st.runtime.cacheSize)))) := by
  unfold parseOption at h
  cases hsp : splitOption option with
  | none =>
    simp only [hsp] at h
    cases hop : parseToken option type <;> simp only [hop] at h <;>
      (injection h with h1 h2; subst h1; subst h2; simp)
  | some nv =>
    obtain ⟨nm, v⟩ := nv
    simp only [hsp] at h
    cases hop : parseToken nm type with
    | oBadOption =>
      simp only [hop, parseOptionValued] at h
      injection h with h1 h2; subst h1; subst h2; simp
    | oChunk_max_size =>
      simp only [hop, parseOptionValued] at h
      injection h with h1 h2; subst h1; subst h2; simp
    | oBundle_max_payload_size =>
      simp only [hop, parseOptionValued] at h
      injection h with h1 h2; subst h1; subst h2; simp
    | oBundle_compression_method =>
      have hty : type = .Storable := (parseToken_category nm type).1 hop
      subst hty
      simp only [hop, parseOptionValued] at h
      by_cases h1v : v = str "lzma"
      · rw [if_pos h1v] at h
        cases hf : env.find (str "lzma") <;> simp only [hf] at h <;>
          (injection h with h1 h2; subst h1; subst h2; simp)
      · rw [if_neg h1v] at h
        by_cases h2v : v = str "lzo1x_1" ∨ v = str "lzo"
        · rw [if_pos h2v] at h
          cases hf : env.find (str "lzo1x_1") <;> simp only [hf] at h <;>
            (injection h with h1 h2; subst h1; subst h2; simp)
        · rw [if_neg h2v] at h
          injection h with h1 h2; subst h1; subst h2; simp
    | oRuntime_threads =>
      have hty : type = .Runtime := (parseToken_category nm type).2.1 hop
      subst hty
      simp only [hop, parseOptionValued] at h
      cases hts : threadsScan v <;> simp only [hts] at h <;>
        (injection h with h1 h2; subst h1; subst h2; simp)
    | oRuntime_cacheSize =>
      have hty : type = .Runtime := (parseToken_category nm type).2.2.1 hop
      subst hty
      simp only [hop, parseOptionValued] at h
      cases hcs : cacheScan v <;> simp only [hcs] at h <;>
        (injection h with h1 h2; subst h1; subst h2; simp)
    | oRuntime_exchange =>
      have hty : type = .Runtime := (parseToken_category nm type).2.2.2 hop
      subst hty
      simp only [hop, parseOptionValued] at h
      by_cases e1 : v = str "backups"
      · rw [if_pos e1] at h
        injection h with h1 h2; subst h1; subst h2; simp
      · rw [if_neg e1] at h
        by_cases e2 : v = str "bundles"
        · rw [if_pos e2] at h
          injection h with h1 h2; subst h1; subst h2; simp
        · rw [if_neg e2] at h
          by_cases e3 : v = str "index"
          · rw [if_pos e3] at h
            injection h with h1 h2; subst h1; subst h2; simp
          · rw [if_neg e3] at h
            injection h with h1 h2; subst h1; subst h2; simp

/-- C8 witness: applying `threads=4` (a `Runtime` token) leaves the
storable record untouched. -/
theorem parseOption_frame_witness :
    (parseOption testEnv (str "threads=4") .Runtime testState).2.storable
      = testState.storable := by
  have h := parseOption_frame testEnv (str "threads=4") .Runtime testState
    (parseOption testEnv (str "threads=4") .Runtime testState).1
    (parseOption testEnv (str "threads=4") .Runtime testState).2 rfl
  exact ((h.2.2 (by decide)).2 rfl).1
